import Mathlib

/-!
Shallow embedding of the node-irc client library core (src/src/irc.ts and the
capabilities / state modules), together with proofs settling the frozen claims.

JavaScript strings are modelled as Lean `String` / `List Char`; JS `Map` and
plain objects used as dictionaries are modelled as association lists with
JS `Map.set` ordering (overwrite in place, append new keys at the end);
JS `Set` is modelled as a duplicate-free insertion-ordered list.
`undefined`-returning lookups are modelled with `Option`.
-/

namespace NodeIrc

/-! ## Generic helpers: association lists, JS string primitives -/

/-- Lookup in an association list (models JS `Map.get` / object indexing). -/
def alookup {α β : Type} [DecidableEq α] : List (α × β) → α → Option β
  | [], _ => none
  | (k, v) :: rest, a => if k = a then some v else alookup rest a

/-- Set a key in an association list (models JS `Map.set` / object property
assignment: overwrite in place, append new keys at the end). -/
def aset {α β : Type} [DecidableEq α] : List (α × β) → α → β → List (α × β)
  | [], k, v => [(k, v)]
  | (k', v') :: rest, k, v =>
    if k' = k then (k, v) :: rest else (k', v') :: aset rest k v

/-- Delete a key from an association list (models JS `Map.delete`). -/
def adel {α β : Type} [DecidableEq α] : List (α × β) → α → List (α × β)
  | [], _ => []
  | (k', v') :: rest, k => if k' = k then rest else (k', v') :: adel rest k

/-- Insert into a JS `Set` (kept as an insertion-ordered duplicate-free list). -/
def setAdd (l : List String) (x : String) : List String :=
  if x ∈ l then l else l ++ [x]

/-- JS `String.prototype.split(sep)` with a single-character separator. -/
def splitOnChar (sep : Char) : List Char → List (List Char)
  | [] => [[]]
  | c :: rest =>
    let r := splitOnChar sep rest
    if c = sep then [] :: r
    else
      match r with
      | [] => [[c]]
      | h :: t => (c :: h) :: t

/-- The characters matched by the JS regex class `\s` (ASCII part). -/
def isJsWhitespace (c : Char) : Bool :=
  c = ' ' || c = '\t' || c = '\n' || c = '\r' || c = '\x0b' || c = '\x0c'

/-- JS `String.prototype.trim`. -/
def jsTrim (cs : List Char) : List Char :=
  ((cs.dropWhile isJsWhitespace).reverse.dropWhile isJsWhitespace).reverse

/-- ASCII model of JS `String.prototype.toLowerCase`, per character. -/
def jsToLowerChar (c : Char) : Char :=
  if c.toNat ≥ 65 ∧ c.toNat ≤ 90 then Char.ofNat (c.toNat + 32) else c

/-- ASCII model of JS `String.prototype.toUpperCase`, per character. -/
def jsToUpperChar (c : Char) : Char :=
  if c.toNat ≥ 97 ∧ c.toNat ≤ 122 then Char.ofNat (c.toNat - 32) else c

/-- ASCII model of JS `String.prototype.toLowerCase`. -/
def jsToLower (s : String) : String := String.mk (s.toList.map jsToLowerChar)

/-- JS `haystack.includes(needle)` for strings (substring test). -/
def listIncludes (haystack needle : List Char) : Bool :=
  haystack.tails.any (fun t => needle.isPrefixOf t)

/-- JS `str.replace(c, '')` for a single-character pattern: remove the first
occurrence only. -/
def removeFirstChar : List Char → Char → List Char
  | [], _ => []
  | c :: rest, p => if c = p then rest else c :: removeFirstChar rest p

/-- JS `Array.prototype.join(' ')`. -/
def joinWithSpace : List String → String
  | [] => ""
  | [s] => s
  | s :: rest => s ++ " " ++ joinWithSpace rest

/-- Leading decimal digits of a character list, if any (helper for `parseInt`). -/
def parseDigits (cs : List Char) : Option Nat :=
  let ds := cs.takeWhile Char.isDigit
  if ds = [] then none
  else some (ds.foldl (fun a c => a * 10 + (c.toNat - 48)) 0)

/-- Model of JS `parseInt` (decimal; `none` models `NaN`; the hexadecimal
`0x` prefix is not modelled — no claim depends on parsed numeric values). -/
def jsParseInt (cs : List Char) : Option Int :=
  match cs.dropWhile isJsWhitespace with
  | '-' :: rest => (parseDigits rest).map (fun n => -(n : Int))
  | '+' :: rest => (parseDigits rest).map (fun n => (n : Int))
  | other => (parseDigits other).map (fun n => (n : Int))

/-- JS `parseInt` applied to a possibly-`undefined` value
(`parseInt(undefined)` is `NaN`, i.e. `none`). -/
def jsParseIntOpt (s : Option (List Char)) : Option Int :=
  s.bind jsParseInt

/-! ## Capabilities tracker (capabilities.ts): claims C1 and C6 -/

/-- `class Capabilities` from capabilities.ts: a set of capability tokens,
a set of SASL method names, and the multi-line-response completion flag. -/
structure Capabilities where
  caps : List String
  saslTypes : List String
  ready : Bool
deriving DecidableEq, Repr

def emptyCapabilities : Capabilities := ⟨[], [], false⟩

/-- `Capabilities.extend(messageArgs)`. `none` models the `TypeError` thrown
when the indexed argument is `undefined`. Note the source's
`if (saslTypes) { allCaps.push('sasl'); }`: `saslTypes` is always an array
(`|| []`), and an array is always truthy in JS, so `'sasl'` is pushed
unconditionally. -/
def Capabilities.extend (c : Capabilities) (messageArgs : List String) :
    Option Capabilities :=
  match messageArgs with
  | [] => none
  | a0 :: rest =>
    let ready' := if a0 = "*" then c.ready else true
    let capabilityString? := if a0 = "*" then rest.head? else some a0
    match capabilityString? with
    | none => none
    | some capabilityString =>
      let allCaps := (splitOnChar ' ' (jsTrim capabilityString.toList)).map String.mk
      let saslTypes :=
        match allCaps.find? (fun s => ("sasl=".toList).isPrefixOf s.toList) with
        | some t =>
          ((splitOnChar ',' ((splitOnChar '=' t.toList).getD 1 [])).map
            (fun (l : List Char) => String.mk (l.map jsToUpperChar)))
        | none => []
      let allCaps := allCaps ++ ["sasl"]
      some { caps := allCaps.foldl setAdd c.caps,
             saslTypes := saslTypes.foldl setAdd c.saslTypes,
             ready := ready' }

/-- The pair of `Capabilities` held by `IrcCapabilities`. -/
structure IrcCapabilities where
  serverCapabilites : Capabilities
  userCapabilites : Capabilities
deriving DecidableEq, Repr

/-- The value returned by `IrcCapabilities.serialise()`. -/
structure SerialisedCaps where
  serverCapabilites : List String
  serverCapabilitesSasl : List String
  userCapabilites : List String
  userCapabilitesSasl : List String
deriving DecidableEq, Repr

def IrcCapabilities.serialise (c : IrcCapabilities) : SerialisedCaps :=
  ⟨c.serverCapabilites.caps, c.serverCapabilites.saslTypes,
   c.userCapabilites.caps, c.userCapabilites.saslTypes⟩

/-- The `IrcCapabilities` constructor applied to serialised data. Mirrors the
source line by line; note that the third line of the constructor adds the
serialised user capabilities into `serverCapabilites.caps`. -/
def ircCapabilitiesOfData (data : Option SerialisedCaps) : IrcCapabilities :=
  match data with
  | none => ⟨emptyCapabilities, emptyCapabilities⟩
  | some d =>
    let serverCaps := d.serverCapabilites.foldl setAdd []
    let serverSasl := d.serverCapabilitesSasl.foldl setAdd []
    let serverCaps := d.userCapabilites.foldl setAdd serverCaps
    let userSasl := d.userCapabilitesSasl.foldl setAdd []
    ⟨⟨serverCaps, serverSasl, false⟩, ⟨[], userSasl, false⟩⟩

/-- `IrcCapabilities.supportsSasl`; `none` models the thrown `Error` when the
server response has not completed. -/
def IrcCapabilities.supportsSasl (c : IrcCapabilities) : Option Bool :=
  if c.serverCapabilites.ready then some ("sasl" ∈ c.serverCapabilites.caps)
  else none

/-- `CAP <target> LS` handling in `onCap`: extend the server capabilities. -/
def onCapLs (c : IrcCapabilities) (parts : List String) : Option IrcCapabilities :=
  (c.serverCapabilites.extend parts).map (fun sc => { c with serverCapabilites := sc })

/-! ## Send pipeline serialization (`Client._send`): claim C7 -/

/-- The test applied to the final argument in `_send`:
`args[last].match(/\s/) || args[last].match(/^:/) || args[last] === ''`. -/
def needsTrailingColon (s : String) : Bool :=
  s.toList.any isJsWhitespace ||
    (match s.toList with | ':' :: _ => true | _ => false) ||
    s = ""

/-- `Client._send(...cmdArgs)`: the line written to the connection, or `none`
when nothing is written (not connected throws; empty argument list throws on
`undefined.match`; `requestedDisconnect` silently drops the write). -/
def sendLine (connected requestedDisconnect : Bool) (cmdArgs : List String) :
    Option String :=
  if !connected then none
  else
    match cmdArgs.getLast? with
    | none => none
    | some last =>
      let args :=
        if needsTrailingColon last then cmdArgs.dropLast ++ [":" ++ last]
        else cmdArgs
      if requestedDisconnect then none
      else some (joinWithSpace args ++ "\r\n")

/-! ## Channel data (`ChanData`, `Client.chanData`, `Client.onJoin`):
claims C8 and C10 -/

/-- `ChanData` from state.ts. Mode strings and user prefix strings are
modelled as `List Char`. -/
structure ChanData where
  key : String
  serverName : String
  users : List (String × List Char)
  mode : List Char
  modeParams : List (Char × List String)
  topic : Option String
  topicBy : Option String
  created : Option String
deriving DecidableEq, Repr

/-- The fresh record built by `chanData` when `create` is set. -/
def newChanData (key name : String) : ChanData :=
  ⟨key, name, [], [], [], none, none, none⟩

/-- The `state.chans` map: lowercased key to channel record. -/
abbrev Chans : Type := List (String × ChanData)

/-- `Client.chanData(name, create)`: returns the value of `existing`
(computed before any insertion) together with the updated `chans` map. -/
def chanData (chans : Chans) (name : String) (create : Bool) :
    Option ChanData × Chans :=
  let key := jsToLower name
  let existing := alookup chans key
  if create ∧ existing = none then
    (existing, aset chans key (newChanData key name))
  else (existing, chans)

/-- The list of casemappings known to `Client.toLowerCase`. -/
def knownCaseMappings : List String := ["ascii", "rfc1459", "strict-rfc1459"]

/-- The per-character effect of the chained `replace` calls for the
`rfc1459` casemapping. -/
def rfc1459MapChar (c : Char) : Char :=
  if c = '[' then '{' else if c = ']' then '}'
  else if c = '\\' then '|' else if c = '^' then '~' else c

/-- The per-character effect of the chained `replace` calls for the
`strict-rfc1459` casemapping. -/
def strictRfc1459MapChar (c : Char) : Char :=
  if c = '[' then '{' else if c = ']' then '}'
  else if c = '\\' then '|' else c

/-- `Client.toLowerCase(str)` under the current casemapping. -/
def ircToLowerCase (casemapping : String) (s : String) : String :=
  if casemapping ∉ knownCaseMappings then s
  else
    let lower := jsToLower s
    if casemapping = "rfc1459" then String.mk (lower.toList.map rfc1459MapChar)
    else if casemapping = "strict-rfc1459" then
      String.mk (lower.toList.map strictRfc1459MapChar)
    else lower

/-- `Client._casemap` applied to one argument: casemap it only when it is a
non-empty string beginning with `#`. -/
def casemapArg (casemapping : String) (arg : String) : String :=
  match arg.toList with
  | '#' :: _ => ircToLowerCase casemapping arg
  | _ => arg

/-- The self-join path of `Client.onJoin`: `_casemap(message, 0)` followed by
`chanData(message.args[0], true)`. -/
def onJoinSelf (casemapping : String) (chans : Chans) (chanArg : String) : Chans :=
  (chanData chans (casemapArg casemapping chanArg) true).2

/-! ## Bad-nickname handling (`Client.onBadNickname`): claim C9 -/

/-- The observable outcome of `onBadNickname`: the commands sent, the updated
`state.currentNick` (if any), and whether the `error` event was emitted. -/
structure BadNickResult where
  sent : List (List String)
  currentNick : Option String
  errorEmitted : Bool
deriving DecidableEq, Repr

/-- `Client.onBadNickname`, parameterised by the current `hostMask` and by the
value `rnd` of `Math.floor(Math.random() * 1000)` (a natural below 1000). -/
def onBadNickname (hostMask : String) (rnd : Nat) : BadNickResult :=
  if hostMask ≠ "" then ⟨[], none, true⟩
  else
    let rndNick := "enick_" ++ toString rnd
    ⟨[["NICK", rndNick]], some rndNick, false⟩

/-! ## MODE handling (`Client.onMode` / `handleChannelMode`): claims C2, C3 -/

/-- The four channel-mode classes from `supportedState.channel.modes`. -/
structure ChanModes where
  a : List Char
  b : List Char
  c : List Char
  d : List Char
deriving DecidableEq, Repr

/-- The parts of client state read by the mode-scanning loop of `onMode`. -/
structure ModeCtx where
  prefixForMode : List (Char × Char)
  supported : ChanModes
deriving DecidableEq, Repr

/-- The inner `handleChannelMode` closure of `Client.onMode`. -/
def handleChannelMode (adding : Bool) (ch : ChanData) (mode : Char)
    (param : Option String) (modeIsList : Bool) : ChanData :=
  let modeParam := alookup ch.modeParams mode
  if adding then
    let ch1 := if mode ∈ ch.mode then ch else { ch with mode := ch.mode ++ [mode] }
    match param with
    | none => { ch1 with modeParams := aset ch1.modeParams mode [] }
    | some p =>
      if modeIsList then
        { ch1 with modeParams := aset ch1.modeParams mode ((modeParam.getD []) ++ [p]) }
      else { ch1 with modeParams := aset ch1.modeParams mode [p] }
  else
    match modeParam with
    | none => ch
    | some l =>
      if modeIsList then
        let filtered := l.filter (fun s => s ≠ String.singleton mode)
        { ch with modeParams := aset ch.modeParams mode filtered }
      else
        { ch with mode := removeFirstChar ch.mode mode,
                  modeParams := adel ch.modeParams mode }

/-- The `modeList.forEach` loop of `Client.onMode`: scan the mode characters,
toggling `adding` on `+`/`-`, consuming `modeArgs` per mode class. -/
def applyModes (ctx : ModeCtx) : List Char → Bool → List String → ChanData → ChanData
  | [], _, _, ch => ch
  | '+' :: rest, _, args, ch => applyModes ctx rest true args ch
  | '-' :: rest, _, args, ch => applyModes ctx rest false args ch
  | m :: rest, adding, args, ch =>
    match alookup ctx.prefixForMode m with
    | some pfx =>
      let user := args.head?
      let ch' :=
        match user with
        | none => ch
        | some u =>
          if u = "" then ch
          else
            match alookup ch.users u with
            | none => ch
            | some curr =>
              if adding ∧ pfx ∉ curr then
                { ch with users := aset ch.users u (curr ++ [pfx]) }
              else if pfx ∈ curr then
                { ch with users := aset ch.users u (removeFirstChar curr pfx) }
              else ch
      applyModes ctx rest adding args.tail ch'
    | none =>
      if m ∈ ctx.supported.a then
        applyModes ctx rest adding args.tail
          (handleChannelMode adding ch m args.head? true)
      else if m ∈ ctx.supported.b then
        applyModes ctx rest adding args.tail
          (handleChannelMode adding ch m args.head? false)
      else if m ∈ ctx.supported.c then
        if adding then
          applyModes ctx rest adding args.tail
            (handleChannelMode adding ch m args.head? false)
        else applyModes ctx rest adding args (handleChannelMode adding ch m none false)
      else if m ∈ ctx.supported.d then
        applyModes ctx rest adding args (handleChannelMode adding ch m none false)
      else applyModes ctx rest adding args ch

/-! ## ISUPPORT applier (`Client.onReplyISupport`): claims C4, C5 -/

/-- Uppercase ASCII letter, as in the JS regex class `[A-Z]`. -/
def isUpperAZ (c : Char) : Bool := 'A' ≤ c && c ≤ 'Z'

/-- Worker for `findTokenMatch`: carries the current run of uppercase
letters. -/
def findTokenMatchAux (run : List Char) : List Char → Option (List Char × List Char)
  | [] => none
  | c :: rest =>
    if isUpperAZ c then findTokenMatchAux (run ++ [c]) rest
    else if c = '=' ∧ run ≠ [] then some (run, rest)
    else findTokenMatchAux [] rest

/-- The leftmost match of the JS regex `/([A-Z]+)=(.*)/` against a token:
the first maximal run of uppercase letters immediately followed by `=`,
paired with everything after the `=`. -/
def findTokenMatch (cs : List Char) : Option (List Char × List Char) :=
  findTokenMatchAux [] cs

/-- The leftmost match of `/\((.*?)\)(.*)/` used by the `PREFIX` case: the
characters between the first `(` and the first subsequent `)`, and the rest. -/
def parsePrefixValue (cs : List Char) : Option (List Char × List Char) :=
  match cs.dropWhile (fun c => c ≠ '(') with
  | [] => none
  | _ :: rest =>
    match rest.dropWhile (fun c => c ≠ ')') with
    | [] => none
    | _ :: g2 => some (rest.takeWhile (fun c => c ≠ ')'), g2)

/-- The view of client state mutated by `onReplyISupport`: the
`supportedState` fields plus the `modeForPrefix` / `prefixForMode` maps. -/
structure IsuState where
  casemapping : String
  chanTypes : String
  chanLength : Option Int
  limit : List (String × Option Int)
  idlength : List (String × Option String)
  kicklength : Option Int
  maxlist : List (String × Option Int)
  nicklength : Option Int
  modesA : List Char
  modesB : List Char
  modesC : List Char
  modesD : List Char
  usermodepriority : String
  maxtargets : List (String × Option Int)
  topiclength : Option Int
  extra : List String
  modeForPrefix : List (Char × Char)
  prefixForMode : List (Char × Char)
deriving DecidableEq, Repr

/-- The initial state: `DefaultIrcSupported` plus empty prefix maps. -/
def defaultIsuState : IsuState :=
  { casemapping := "ascii", chanTypes := "", chanLength := some 200,
    limit := [], idlength := [], kicklength := some 0, maxlist := [],
    nicklength := some 9, modesA := [], modesB := [], modesC := [],
    modesD := [], usermodepriority := "", maxtargets := [],
    topiclength := some 0, extra := [], modeForPrefix := [],
    prefixForMode := [] }

/-- One class string updated by the `CHANMODES` case:
`if (!modes[t].includes(mode)) modes[t] += mode`. -/
def chanmodesMerge (cls seg : List Char) : List Char :=
  if listIncludes cls seg then cls else cls ++ seg

/-- The `while (match1.length)` loop of the `PREFIX` case. The source indexes
`match2[0]` even when `match2` is exhausted (yielding an `undefined` object
key, which no further lookup observes); that assignment is skipped here. -/
def prefixLoop : List Char → List Char → IsuState → IsuState
  | [], _, st => st
  | m :: ms, ps, st =>
    let st1 :=
      match ps with
      | [] => st
      | p :: _ => { st with modeForPrefix := aset st.modeForPrefix p m }
    let st2 :=
      if m ∈ st1.modesB then st1 else { st1 with modesB := st1.modesB ++ [m] }
    match ps with
    | [] => prefixLoop ms [] st2
    | p :: pr => prefixLoop ms pr { st2 with prefixForMode := aset st2.prefixForMode m p }

/-- One `KEY=VALUE` token applied to the state: the `switch (param)` of
`onReplyISupport`. Tokens not matching `/([A-Z]+)=(.*)/` are skipped.
A missing `CHANMODES` class segment is read as the string `"undefined"`,
matching the JS string coercion of `undefined` in `includes` and `+=`. -/
def applyISupportToken (st : IsuState) (arg : List Char) : IsuState :=
  match findTokenMatch arg with
  | none => st
  | some (paramCs, valueCs) =>
    let param := String.mk paramCs
    if param = "CASEMAPPING" then { st with casemapping := String.mk valueCs }
    else if param = "CHANLIMIT" then
      let limit' := (splitOnChar ',' valueCs).foldl
        (fun mp val =>
          let ps := splitOnChar ':' val
          aset mp (String.mk (ps.getD 0 [])) (jsParseIntOpt (ps.get? 1)))
        st.limit
      { st with limit := limit' }
    else if param = "CHANMODES" then
      let values := splitOnChar ',' valueCs
      let seg := fun (i : Nat) => values.getD i ("undefined".toList)
      { st with modesA := chanmodesMerge st.modesA (seg 0),
                modesB := chanmodesMerge st.modesB (seg 1),
                modesC := chanmodesMerge st.modesC (seg 2),
                modesD := chanmodesMerge st.modesD (seg 3) }
    else if param = "CHANTYPES" then { st with chanTypes := String.mk valueCs }
    else if param = "CHANNELLEN" then { st with chanLength := jsParseInt valueCs }
    else if param = "IDCHAN" then
      let idlength' := (splitOnChar ',' valueCs).foldl
        (fun mp val =>
          let ps := splitOnChar ':' val
          aset mp (String.mk (ps.getD 0 [])) ((ps.get? 1).map String.mk))
        st.idlength
      { st with idlength := idlength' }
    else if param = "KICKLEN" then { st with kicklength := jsParseInt valueCs }
    else if param = "MAXLIST" then
      let maxlist' := (splitOnChar ',' valueCs).foldl
        (fun mp val =>
          let ps := splitOnChar ':' val
          aset mp (String.mk (ps.getD 0 [])) (jsParseIntOpt (ps.get? 1)))
        st.maxlist
      { st with maxlist := maxlist' }
    else if param = "NICKLEN" then { st with nicklength := jsParseInt valueCs }
    else if param = "PREFIX" then
      match parsePrefixValue valueCs with
      | none => st
      | some (ms, ps) =>
        prefixLoop ms ps { st with usermodepriority := String.mk ms }
    else if param = "STATUSMSG" then st
    else if param = "TARGMAX" then
      let maxtargets' := (splitOnChar ',' valueCs).foldl
        (fun mp val =>
          let ps := splitOnChar ':' val
          match ps.get? 1 with
          | some _ => mp
          | none => aset mp (String.mk (ps.getD 0 [])) none)
        st.maxtargets
      { st with maxtargets := maxtargets' }
    else if param = "TOPICLEN" then { st with topiclength := jsParseInt valueCs }
    else
      let value := String.mk valueCs
      { st with extra := if value ∈ st.extra then st.extra else st.extra ++ [value] }

/-- `onReplyISupport` over a list of argument tokens (one 005 line is its
argument list; consecutive lines concatenate). -/
def applyISupportTokens (st : IsuState) (args : List (List Char)) : IsuState :=
  args.foldl applyISupportToken st

/-- Wellformedness of the CHANMODES payload of a token (used as a hypothesis):
if the token matches `CHANMODES=...`, its comma-split value has at least four
class segments and each of the first four is duplicate-free. Non-CHANMODES
tokens are unconstrained. -/
def goodChanmodesToken (tok : List Char) : Bool :=
  match findTokenMatch tok with
  | none => true
  | some (paramCs, valueCs) =>
    if String.mk paramCs = "CHANMODES" then
      let values := splitOnChar ',' valueCs
      decide (4 ≤ values.length) &&
        ((List.range 4).all (fun i => decide ((values.getD i ("undefined".toList)).Nodup)))
    else true

/-! ## Concrete fixtures used by counterexamples and code-bug witnesses -/

/-- An `IrcCapabilities` value whose only content is one user capability. -/
def c6OrigCaps : IrcCapabilities :=
  ⟨emptyCapabilities, ⟨["account-tag"], [], false⟩⟩

/-- Mode context with `o → @` as the only user-prefix mode. -/
def ctxC2 : ModeCtx := ⟨[('o', '@')], ⟨[], [], [], []⟩⟩

/-- A channel where user `alice` already holds the `@` prefix. -/
def chanC2 : ChanData := { newChanData "#c" "#c" with users := [("alice", ['@'])] }

/-- Mode context where `b` is a class-a (list) mode. -/
def ctxC3 : ModeCtx := ⟨[], ⟨['b'], [], [], []⟩⟩

/-- A channel whose `modeParams` for `b` holds the single parameter `x`. -/
def chanC3 : ChanData := { newChanData "#c" "#c" with modeParams := [('b', ["x"])] }

/-- Two well-formed `PREFIX` tokens that remap the `@` prefix character. -/
def prefixToksC4 : List (List Char) := ["PREFIX=(o)@".toList, "PREFIX=(v)@".toList]

/-- Four ISUPPORT tokens in which `FOO=BAR` appears twice and the two
`CHANMODES` tokens overlap on the mode character `b`. -/
def toksC5 : List (List Char) :=
  ["CHANMODES=b,k,l,m".toList, "FOO=BAR".toList,
   "CHANMODES=ab,k,l,m".toList, "FOO=BAR".toList]

/-! ## Helper lemmas -/

theorem alookup_aset_self {α β : Type} [DecidableEq α]
    (l : List (α × β)) (k : α) (v : β) : alookup (aset l k v) k = some v := by
  induction l with
  | nil => simp [aset, alookup]
  | cons h t ih =>
    obtain ⟨k', v'⟩ := h
    by_cases hk : k' = k <;> simp [aset, alookup, hk, ih]

theorem alookup_aset_of_ne {α β : Type} [DecidableEq α]
    (l : List (α × β)) (k k' : α) (v : β) (h : k' ≠ k) :
    alookup (aset l k v) k' = alookup l k' := by
  induction l with
  | nil => simp [aset, alookup, Ne.symm h]
  | cons hd t ih =>
    obtain ⟨k₀, v₀⟩ := hd
    by_cases hk : k₀ = k
    · subst hk
      simp [aset, alookup, Ne.symm h]
    · by_cases hk' : k₀ = k' <;> simp [aset, alookup, hk, hk', h, ih]

theorem removeFirstChar_append_of_not_mem (s : List Char) (p : Char)
    (h : p ∉ s) : removeFirstChar (s ++ [p]) p = s := by
  induction s with
  | nil => simp [removeFirstChar]
  | cons c t ih =>
    have hc : c ≠ p := fun hcp => h (hcp ▸ List.mem_cons_self c t)
    have ht : p ∉ t := fun hm => h (List.mem_cons_of_mem c hm)
    simp [removeFirstChar, hc, ih ht]

theorem char_toNat_ofNat (n : Nat) (h : n.isValidChar) :
    (Char.ofNat n).toNat = n := by
  simp [Char.ofNat, h, Char.ofNatAux, Char.toNat, UInt32.ofNat', UInt32.toNat,
    BitVec.toNat_ofNatLt]

theorem jsToLowerChar_idem (c : Char) :
    jsToLowerChar (jsToLowerChar c) = jsToLowerChar c := by
  unfold jsToLowerChar
  by_cases h : c.toNat ≥ 65 ∧ c.toNat ≤ 90
  · have hv : (c.toNat + 32).isValidChar := Or.inl (by omega)
    have ht : (Char.ofNat (c.toNat + 32)).toNat = c.toNat + 32 :=
      char_toNat_ofNat _ hv
    have hcond : ¬ ((Char.ofNat (c.toNat + 32)).toNat ≥ 65 ∧
        (Char.ofNat (c.toNat + 32)).toNat ≤ 90) := by rw [ht]; omega
    simp [h, hcond]
  · simp [h]

theorem jsToLowerChar_of_not_upper (c : Char) (h : ¬ (c.toNat ≥ 65 ∧ c.toNat ≤ 90)) :
    jsToLowerChar c = c := by simp [jsToLowerChar, h]

theorem rfc1459MapChar_not_upper (c : Char) :
    ¬ ((rfc1459MapChar c).toNat ≥ 65 ∧ (rfc1459MapChar c).toNat ≤ 90) →
      jsToLowerChar (rfc1459MapChar c) = rfc1459MapChar c :=
  jsToLowerChar_of_not_upper _

theorem jsToLower_idem (s : String) : jsToLower (jsToLower s) = jsToLower s := by
  show String.mk (((s.toList.map jsToLowerChar)).map jsToLowerChar)
      = String.mk (s.toList.map jsToLowerChar)
  rw [List.map_map]
  exact congrArg String.mk
    (List.map_congr_left (fun a _ => jsToLowerChar_idem a))

theorem toDigitsCore_len_lb (b : Nat) : ∀ (f n : Nat) (l : List Char),
    l.length < (Nat.toDigitsCore b (f + 1) n l).length := by
  intro f
  induction f with
  | zero =>
    intro n l
    unfold Nat.toDigitsCore
    by_cases hd : n / b = 0 <;> simp [hd, Nat.toDigitsCore]
  | succ f ih =>
    intro n l
    unfold Nat.toDigitsCore
    by_cases hd : n / b = 0
    · simp [hd]
    · have := ih (n / b) (Nat.digitChar (n % b) :: l)
      simp only [hd, if_false]
      simp at this ⊢
      omega

theorem repr_len_pos (n : Nat) : 1 ≤ (Nat.repr n).length := by
  have := toDigitsCore_len_lb 10 n n []
  simpa [Nat.repr, Nat.toDigits, List.asString, String.length] using this

theorem jsToLowerChar_toNat_not_upper (c : Char) :
    ¬ (65 ≤ (jsToLowerChar c).toNat ∧ (jsToLowerChar c).toNat ≤ 90) := by
  unfold jsToLowerChar
  by_cases h : c.toNat ≥ 65 ∧ c.toNat ≤ 90
  · have ht := char_toNat_ofNat (c.toNat + 32) (Or.inl (by omega))
    simp [h, ht]
    all_goals omega
  · simp [h]

theorem jsToLowerChar_rfc1459MapChar (a : Char) :
    jsToLowerChar (rfc1459MapChar (jsToLowerChar a))
      = rfc1459MapChar (jsToLowerChar a) := by
  have hd := jsToLowerChar_toNat_not_upper a
  unfold rfc1459MapChar
  by_cases h1 : jsToLowerChar a = '['
  · simp [h1]; decide
  · by_cases h2 : jsToLowerChar a = ']'
    · simp [h1, h2]; decide
    · by_cases h3 : jsToLowerChar a = '\\'
      · simp [h1, h2, h3]; decide
      · by_cases h4 : jsToLowerChar a = '^'
        · simp [h1, h2, h3, h4]; decide
        · simp [h1, h2, h3, h4, jsToLowerChar_of_not_upper _ hd]

theorem ircToLowerCase_lower_fixed (cm : String) (s : String)
    (hcm : cm ∈ knownCaseMappings) :
    jsToLower (ircToLowerCase cm s) = ircToLowerCase cm s := by
  simp only [knownCaseMappings, List.mem_cons, List.not_mem_nil, or_false] at hcm
  rcases hcm with rfl | rfl | rfl
  · simpa [ircToLowerCase, knownCaseMappings] using jsToLower_idem s
  · show jsToLower (ircToLowerCase "rfc1459" s) = _
    simp only [ircToLowerCase, knownCaseMappings]
    norm_num
    show String.mk ((((s.toList.map jsToLowerChar)).map rfc1459MapChar).map jsToLowerChar)
        = String.mk (((s.toList.map jsToLowerChar)).map rfc1459MapChar)
    congr 1
    simp only [List.map_map]
    refine List.map_congr_left (fun a _ => ?_)
    simp only [Function.comp_apply]
    exact jsToLowerChar_rfc1459MapChar a
  · show jsToLower (ircToLowerCase "strict-rfc1459" s) = _
    simp only [ircToLowerCase, knownCaseMappings]
    norm_num
    show String.mk ((((s.toList.map jsToLowerChar)).map strictRfc1459MapChar).map jsToLowerChar)
        = String.mk (((s.toList.map jsToLowerChar)).map strictRfc1459MapChar)
    congr 1
    simp only [List.map_map]
    refine List.map_congr_left (fun a _ => ?_)
    simp only [Function.comp_apply]
    have hd := jsToLowerChar_toNat_not_upper a
    unfold strictRfc1459MapChar
    by_cases h1 : jsToLowerChar a = '['
    · simp [h1]; decide
    · by_cases h2 : jsToLowerChar a = ']'
      · simp [h1, h2]; decide
      · by_cases h3 : jsToLowerChar a = '\\'
        · simp [h1, h2, h3]; decide
        · simp [h1, h2, h3, jsToLowerChar_of_not_upper _ hd]

theorem alookup_mem {α β : Type} [DecidableEq α] {l : List (α × β)} {q : α} {v : β}
    (h : alookup l q = some v) : (q, v) ∈ l := by
  induction l with
  | nil => simp [alookup] at h
  | cons hd t ih =>
    obtain ⟨k, w⟩ := hd
    by_cases hk : k = q
    · subst hk
      simp [alookup] at h
      simp [h]
    · simp [alookup, hk] at h
      exact List.mem_cons_of_mem _ (ih h)

theorem alookup_eq_none_of_not_mem {α β : Type} [DecidableEq α]
    {l : List (α × β)} {q : α} (h : q ∉ l.map Prod.fst) : alookup l q = none := by
  induction l with
  | nil => simp [alookup]
  | cons hd t ih =>
    obtain ⟨k, w⟩ := hd
    simp only [List.map_cons, List.mem_cons] at h
    push_neg at h
    simp [alookup, Ne.symm h.1, ih h.2]

theorem alookup_eq_some_iff_mem {α β : Type} [DecidableEq α]
    {l : List (α × β)} (hnd : (l.map Prod.fst).Nodup) (q : α) (v : β) :
    alookup l q = some v ↔ (q, v) ∈ l := by
  constructor
  · exact alookup_mem
  · intro hm
    induction l with
    | nil => simp at hm
    | cons hd t ih =>
      obtain ⟨k, w⟩ := hd
      simp only [List.map_cons, List.nodup_cons] at hnd
      rcases List.mem_cons.mp hm with heq | ht
      · obtain ⟨rfl, rfl⟩ := Prod.mk.injEq .. ▸ (Prod.ext_iff.mp heq)
        simp [alookup]
      · have hkq : k ≠ q := by
          intro hk
          subst hk
          exact hnd.1 (List.mem_map.mpr ⟨(k, v), ht, rfl⟩)
        simp [alookup, hkq]
        exact ih hnd.2 ht

theorem prefixLoop_mfp_eq (ms : List Char) : ∀ (ps : List Char) (s1 s2 : IsuState),
    s1.modeForPrefix = s2.modeForPrefix →
    (prefixLoop ms ps s1).modeForPrefix = (prefixLoop ms ps s2).modeForPrefix := by
  induction ms with
  | nil => intro ps s1 s2 h; simpa [prefixLoop] using h
  | cons m ms ih =>
    intro ps s1 s2 h
    match ps with
    | [] =>
      show (prefixLoop ms [] _).modeForPrefix = (prefixLoop ms [] _).modeForPrefix
      apply ih
      by_cases h1 : m ∈ s1.modesB <;> by_cases h2 : m ∈ s2.modesB <;> simp [h1, h2, h]
    | p :: pr =>
      show (prefixLoop ms pr _).modeForPrefix = (prefixLoop ms pr _).modeForPrefix
      apply ih
      by_cases h1 : m ∈ s1.modesB <;> by_cases h2 : m ∈ s2.modesB <;> simp [h1, h2, h]

theorem prefixLoop_pfm_eq (ms : List Char) : ∀ (ps : List Char) (s1 s2 : IsuState),
    s1.prefixForMode = s2.prefixForMode →
    (prefixLoop ms ps s1).prefixForMode = (prefixLoop ms ps s2).prefixForMode := by
  induction ms with
  | nil => intro ps s1 s2 h; simpa [prefixLoop] using h
  | cons m ms ih =>
    intro ps s1 s2 h
    match ps with
    | [] =>
      show (prefixLoop ms [] _).prefixForMode = (prefixLoop ms [] _).prefixForMode
      apply ih
      by_cases h1 : m ∈ s1.modesB <;> by_cases h2 : m ∈ s2.modesB <;> simp [h1, h2, h]
    | p :: pr =>
      show (prefixLoop ms pr _).prefixForMode = (prefixLoop ms pr _).prefixForMode
      apply ih
      by_cases h1 : m ∈ s1.modesB <;> by_cases h2 : m ∈ s2.modesB <;> simp [h1, h2, h]

theorem mem_keys_of_mem_zip {q : Char} {ps ms : List Char}
    (h : q ∈ (ps.zip ms).map Prod.fst) : q ∈ ps := by
  rcases List.mem_map.mp h with ⟨⟨a, b⟩, hab, rfl⟩
  exact (List.of_mem_zip hab).1

theorem prefixLoop_modeForPrefix (ms : List Char) : ∀ (ps : List Char) (st : IsuState),
    ms.length = ps.length → ps.Nodup → ∀ q : Char,
    alookup (prefixLoop ms ps st).modeForPrefix q
      = (match alookup (ps.zip ms) q with
         | some m => some m
         | none => alookup st.modeForPrefix q) := by
  induction ms with
  | nil =>
    intro ps st hlen _ q
    simp [prefixLoop, List.zip_nil_right, alookup]
  | cons m ms ih =>
    intro ps st hlen hps q
    match ps with
    | [] => simp at hlen
    | p :: ps' =>
      simp only [List.length_cons, Nat.succ.injEq] at hlen
      have hnd' : ps'.Nodup := (List.nodup_cons.mp hps).2
      have hpnot : p ∉ ps' := (List.nodup_cons.mp hps).1
      have hstep : (prefixLoop (m :: ms) (p :: ps') st).modeForPrefix
          = (prefixLoop ms ps'
              { st with modeForPrefix := aset st.modeForPrefix p m }).modeForPrefix := by
        show (prefixLoop ms ps' _).modeForPrefix = _
        apply prefixLoop_mfp_eq
        by_cases hb : m ∈ st.modesB <;> simp [hb]
      rw [hstep, ih ps' _ hlen hnd' q]
      by_cases hq : q = p
      · subst hq
        have hz : alookup (ps'.zip ms) q = none :=
          alookup_eq_none_of_not_mem (fun hm => hpnot (mem_keys_of_mem_zip hm))
        simp only [hz, List.zip_cons_cons, alookup, if_pos rfl]
        exact alookup_aset_self st.modeForPrefix q m
      · have hcons : alookup ((p, m) :: ps'.zip ms) q = alookup (ps'.zip ms) q := by
          simp [alookup, Ne.symm hq]
        rw [List.zip_cons_cons, hcons]
        cases hzz : alookup (ps'.zip ms) q with
        | some mm => simp
        | none =>
          simpa using alookup_aset_of_ne st.modeForPrefix p q m hq

theorem prefixLoop_prefixForMode (ms : List Char) : ∀ (ps : List Char) (st : IsuState),
    ms.length = ps.length → ms.Nodup → ∀ r : Char,
    alookup (prefixLoop ms ps st).prefixForMode r
      = (match alookup (ms.zip ps) r with
         | some p => some p
         | none => alookup st.prefixForMode r) := by
  induction ms with
  | nil =>
    intro ps st hlen _ r
    simp [prefixLoop, alookup]
  | cons m ms ih =>
    intro ps st hlen hms r
    match ps with
    | [] => simp at hlen
    | p :: ps' =>
      simp only [List.length_cons, Nat.succ.injEq] at hlen
      have hnd' : ms.Nodup := (List.nodup_cons.mp hms).2
      have hmnot : m ∉ ms := (List.nodup_cons.mp hms).1
      have hstep : (prefixLoop (m :: ms) (p :: ps') st).prefixForMode
          = (prefixLoop ms ps'
              { st with prefixForMode := aset st.prefixForMode m p }).prefixForMode := by
        show (prefixLoop ms ps' _).prefixForMode = _
        apply prefixLoop_pfm_eq
        by_cases hb : m ∈ st.modesB <;> simp [hb]
      rw [hstep, ih ps' _ hlen hnd' r]
      by_cases hr : r = m
      · subst hr
        have hz : alookup (ms.zip ps') r = none :=
          alookup_eq_none_of_not_mem (fun hm => hmnot (mem_keys_of_mem_zip hm))
        simp only [hz, List.zip_cons_cons, alookup, if_pos rfl]
        exact alookup_aset_self st.prefixForMode r p
      · have hcons : alookup ((m, p) :: ms.zip ps') r = alookup (ms.zip ps') r := by
          simp [alookup, Ne.symm hr]
        rw [List.zip_cons_cons, hcons]
        cases hzz : alookup (ms.zip ps') r with
        | some pp => simp
        | none =>
          simpa using alookup_aset_of_ne st.prefixForMode m r p hr

theorem listIncludes_append_self (cls seg : List Char) :
    listIncludes (cls ++ seg) seg = true := by
  unfold listIncludes
  rw [List.any_eq_true]
  refine ⟨seg, ?_, ?_⟩
  · exact (List.mem_tails seg (cls ++ seg)).mpr (List.suffix_append cls seg)
  · exact List.isPrefixOf_iff_prefix.mpr (List.prefix_refl seg)

theorem chanmodesMerge_idem (cls seg : List Char) :
    chanmodesMerge (chanmodesMerge cls seg) seg = chanmodesMerge cls seg := by
  unfold chanmodesMerge
  by_cases h : listIncludes cls seg = true
  · simp [h]
  · simp only [h, if_neg, Bool.not_eq_true] at *
    simp [h, listIncludes_append_self]

theorem chanmodesMerge_nil_nodup (seg : List Char) (h : seg.Nodup) :
    (chanmodesMerge [] seg).Nodup := by
  unfold chanmodesMerge
  by_cases hh : listIncludes [] seg = true <;> simp [hh, h]

theorem prefixLoop_extra (ms : List Char) : ∀ (ps : List Char) (st : IsuState),
    (prefixLoop ms ps st).extra = st.extra := by
  induction ms with
  | nil => intro ps st; rfl
  | cons m ms ih =>
    intro ps st
    match ps with
    | [] =>
      show (prefixLoop ms [] _).extra = _
      rw [ih]
      by_cases hb : m ∈ st.modesB <;> simp [hb]
    | p :: pr =>
      show (prefixLoop ms pr _).extra = _
      rw [ih]
      by_cases hb : m ∈ st.modesB <;> simp [hb]

theorem prefixLoop_modesA (ms : List Char) : ∀ (ps : List Char) (st : IsuState),
    (prefixLoop ms ps st).modesA = st.modesA := by
  induction ms with
  | nil => intro ps st; rfl
  | cons m ms ih =>
    intro ps st
    match ps with
    | [] =>
      show (prefixLoop ms [] _).modesA = _
      rw [ih]
      by_cases hb : m ∈ st.modesB <;> simp [hb]
    | p :: pr =>
      show (prefixLoop ms pr _).modesA = _
      rw [ih]
      by_cases hb : m ∈ st.modesB <;> simp [hb]

theorem prefixLoop_modesC (ms : List Char) : ∀ (ps : List Char) (st : IsuState),
    (prefixLoop ms ps st).modesC = st.modesC := by
  induction ms with
  | nil => intro ps st; rfl
  | cons m ms ih =>
    intro ps st
    match ps with
    | [] =>
      show (prefixLoop ms [] _).modesC = _
      rw [ih]
      by_cases hb : m ∈ st.modesB <;> simp [hb]
    | p :: pr =>
      show (prefixLoop ms pr _).modesC = _
      rw [ih]
      by_cases hb : m ∈ st.modesB <;> simp [hb]

theorem prefixLoop_modesD (ms : List Char) : ∀ (ps : List Char) (st : IsuState),
    (prefixLoop ms ps st).modesD = st.modesD := by
  induction ms with
  | nil => intro ps st; rfl
  | cons m ms ih =>
    intro ps st
    match ps with
    | [] =>
      show (prefixLoop ms [] _).modesD = _
      rw [ih]
      by_cases hb : m ∈ st.modesB <;> simp [hb]
    | p :: pr =>
      show (prefixLoop ms pr _).modesD = _
      rw [ih]
      by_cases hb : m ∈ st.modesB <;> simp [hb]

theorem prefixLoop_modesB_mono (ms : List Char) : ∀ (ps : List Char) (st : IsuState)
    (x : Char), x ∈ st.modesB → x ∈ (prefixLoop ms ps st).modesB := by
  induction ms with
  | nil => intro ps st x hx; exact hx
  | cons m ms ih =>
    intro ps st x hx
    match ps with
    | [] =>
      show x ∈ (prefixLoop ms [] _).modesB
      apply ih
      by_cases hb : m ∈ st.modesB <;> simp [hb, hx]
    | p :: pr =>
      show x ∈ (prefixLoop ms pr _).modesB
      apply ih
      by_cases hb : m ∈ st.modesB <;> simp [hb, hx]

theorem prefixLoop_ms_mem_modesB (ms : List Char) : ∀ (ps : List Char) (st : IsuState)
    (m : Char), m ∈ ms → m ∈ (prefixLoop ms ps st).modesB := by
  induction ms with
  | nil => intro ps st m hm; simp at hm
  | cons m0 ms ih =>
    intro ps st m hm
    rcases List.mem_cons.mp hm with rfl | htail
    · match ps with
      | [] =>
        show m ∈ (prefixLoop ms [] _).modesB
        apply prefixLoop_modesB_mono
        by_cases hb : m ∈ st.modesB <;> simp [hb]
      | p :: pr =>
        show m ∈ (prefixLoop ms pr _).modesB
        apply prefixLoop_modesB_mono
        by_cases hb : m ∈ st.modesB <;> simp [hb]
    · match ps with
      | [] => exact ih [] _ m htail
      | p :: pr => exact ih pr _ m htail

theorem prefixLoop_modesB_stable (ms : List Char) : ∀ (ps : List Char) (st : IsuState),
    (∀ x ∈ ms, x ∈ st.modesB) → (prefixLoop ms ps st).modesB = st.modesB := by
  induction ms with
  | nil => intro ps st _; rfl
  | cons m ms ih =>
    intro ps st hall
    have hm : m ∈ st.modesB := hall m (List.mem_cons_self m ms)
    match ps with
    | [] =>
      show (prefixLoop ms [] _).modesB = _
      rw [ih]
      · simp [hm]
      · intro x hx
        simp [hm]
        exact hall x (List.mem_cons_of_mem m hx)
    | p :: pr =>
      show (prefixLoop ms pr _).modesB = _
      rw [ih]
      · simp [hm]
      · intro x hx
        simp [hm]
        exact hall x (List.mem_cons_of_mem m hx)

theorem prefixLoop_modesB_nodup (ms : List Char) : ∀ (ps : List Char) (st : IsuState),
    st.modesB.Nodup → (prefixLoop ms ps st).modesB.Nodup := by
  induction ms with
  | nil => intro ps st h; exact h
  | cons m ms ih =>
    intro ps st h
    match ps with
    | [] =>
      show (prefixLoop ms [] _).modesB.Nodup
      apply ih
      by_cases hb : m ∈ st.modesB
      · simpa [hb] using h
      · simp [hb, List.nodup_append, h, List.disjoint_singleton]
    | p :: pr =>
      show (prefixLoop ms pr _).modesB.Nodup
      apply ih
      by_cases hb : m ∈ st.modesB
      · simpa [hb] using h
      · simp [hb, List.nodup_append, h, List.disjoint_singleton]

theorem applyISupportToken_classes_idem (st : IsuState) (tok : List Char) :
    (applyISupportToken (applyISupportToken st tok) tok).modesA
        = (applyISupportToken st tok).modesA ∧
    (applyISupportToken (applyISupportToken st tok) tok).modesB
        = (applyISupportToken st tok).modesB ∧
    (applyISupportToken (applyISupportToken st tok) tok).modesC
        = (applyISupportToken st tok).modesC ∧
    (applyISupportToken (applyISupportToken st tok) tok).modesD
        = (applyISupportToken st tok).modesD := by
  unfold applyISupportToken
  cases hfm : findTokenMatch tok with
  | none => simp [hfm]
  | some pv =>
    obtain ⟨paramCs, valueCs⟩ := pv
    simp only [hfm]
    by_cases h1 : String.mk paramCs = "CASEMAPPING"
    · simp [h1]
    · by_cases h2 : String.mk paramCs = "CHANLIMIT"
      · simp [h1, h2]
      · by_cases h3 : String.mk paramCs = "CHANMODES"
        · simp [h1, h2, h3, chanmodesMerge_idem]
        · by_cases h4 : String.mk paramCs = "CHANTYPES"
          · simp [h1, h2, h3, h4]
          · by_cases h5 : String.mk paramCs = "CHANNELLEN"
            · simp [h1, h2, h3, h4, h5]
            · by_cases h6 : String.mk paramCs = "IDCHAN"
              · simp [h1, h2, h3, h4, h5, h6]
              · by_cases h7 : String.mk paramCs = "KICKLEN"
                · simp [h1, h2, h3, h4, h5, h6, h7]
                · by_cases h8 : String.mk paramCs = "MAXLIST"
                  · simp [h1, h2, h3, h4, h5, h6, h7, h8]
                  · by_cases h9 : String.mk paramCs = "NICKLEN"
                    · simp [h1, h2, h3, h4, h5, h6, h7, h8, h9]
                    · by_cases h10 : String.mk paramCs = "PREFIX"
                      · cases hpv : parsePrefixValue valueCs with
                        | none =>
                          simp [h1, h2, h3, h4, h5, h6, h7, h8, h9, h10, hpv]
                        | some mp =>
                          obtain ⟨ms, ps⟩ := mp
                          simp only [h1, h2, h3, h4, h5, h6, h7, h8, h9, h10, hpv]
                          simp
                          refine ⟨?_, ?_, ?_, ?_⟩
                          · simp [prefixLoop_modesA]
                          · exact prefixLoop_modesB_stable ms ps _
                              (fun x hx => prefixLoop_ms_mem_modesB ms ps _ x hx)
                          · simp [prefixLoop_modesC]
                          · simp [prefixLoop_modesD]
                      · by_cases h11 : String.mk paramCs = "STATUSMSG"
                        · simp [h1, h2, h3, h4, h5, h6, h7, h8, h9, h10, h11]
                        · by_cases h12 : String.mk paramCs = "TARGMAX"
                          · simp [h1, h2, h3, h4, h5, h6, h7, h8, h9, h10, h11, h12]
                          · by_cases h13 : String.mk paramCs = "TOPICLEN"
                            · simp [h1, h2, h3, h4, h5, h6, h7, h8, h9, h10, h11,
                                h12, h13]
                            · simp [h1, h2, h3, h4, h5, h6, h7, h8, h9, h10, h11,
                                h12, h13]

theorem applyISupportToken_extra_nodup (st : IsuState) (tok : List Char)
    (h : st.extra.Nodup) : (applyISupportToken st tok).extra.Nodup := by
  unfold applyISupportToken
  cases hfm : findTokenMatch tok with
  | none => simpa [hfm] using h
  | some pv =>
    obtain ⟨paramCs, valueCs⟩ := pv
    simp only [hfm]
    by_cases h1 : String.mk paramCs = "CASEMAPPING"
    · simpa [h1] using h
    · by_cases h2 : String.mk paramCs = "CHANLIMIT"
      · simpa [h1, h2] using h
      · by_cases h3 : String.mk paramCs = "CHANMODES"
        · simpa [h1, h2, h3] using h
        · by_cases h4 : String.mk paramCs = "CHANTYPES"
          · simpa [h1, h2, h3, h4] using h
          · by_cases h5 : String.mk paramCs = "CHANNELLEN"
            · simpa [h1, h2, h3, h4, h5] using h
            · by_cases h6 : String.mk paramCs = "IDCHAN"
              · simpa [h1, h2, h3, h4, h5, h6] using h
              · by_cases h7 : String.mk paramCs = "KICKLEN"
                · simpa [h1, h2, h3, h4, h5, h6, h7] using h
                · by_cases h8 : String.mk paramCs = "MAXLIST"
                  · simpa [h1, h2, h3, h4, h5, h6, h7, h8] using h
                  · by_cases h9 : String.mk paramCs = "NICKLEN"
                    · simpa [h1, h2, h3, h4, h5, h6, h7, h8, h9] using h
                    · by_cases h10 : String.mk paramCs = "PREFIX"
                      · cases hpv : parsePrefixValue valueCs with
                        | none =>
                          simpa [h1, h2, h3, h4, h5, h6, h7, h8, h9, h10, hpv] using h
                        | some mp =>
                          obtain ⟨ms, ps⟩ := mp
                          simp only [h1, h2, h3, h4, h5, h6, h7, h8, h9, h10, hpv]
                          simp [prefixLoop_extra]
                          exact h
                      · by_cases h11 : String.mk paramCs = "STATUSMSG"
                        · simpa [h1, h2, h3, h4, h5, h6, h7, h8, h9, h10, h11] using h
                        · by_cases h12 : String.mk paramCs = "TARGMAX"
                          · simpa [h1, h2, h3, h4, h5, h6, h7, h8, h9, h10, h11,
                              h12] using h
                          · by_cases h13 : String.mk paramCs = "TOPICLEN"
                            · simpa [h1, h2, h3, h4, h5, h6, h7, h8, h9, h10, h11,
                                h12, h13] using h
                            · simp only [h1, h2, h3, h4, h5, h6, h7, h8, h9, h10,
                                h11, h12, h13]
                              by_cases hmem : String.mk valueCs ∈ st.extra
                              · simpa [hmem] using h
                              · simp [hmem, List.nodup_append, h,
                                  List.disjoint_singleton]

theorem applyISupportTokens_extra_nodup (args : List (List Char)) :
    ∀ st : IsuState, st.extra.Nodup → (applyISupportTokens st args).extra.Nodup := by
  induction args with
  | nil => intro st h; exact h
  | cons a rest ih =>
    intro st h
    exact ih _ (applyISupportToken_extra_nodup st a h)

theorem applyISupportTokens_replicate_classes (tok : List Char) (M : Nat) :
    ∀ st : IsuState,
    (applyISupportTokens st (List.replicate (M + 1) tok)).modesA
        = (applyISupportToken st tok).modesA ∧
    (applyISupportTokens st (List.replicate (M + 1) tok)).modesB
        = (applyISupportToken st tok).modesB ∧
    (applyISupportTokens st (List.replicate (M + 1) tok)).modesC
        = (applyISupportToken st tok).modesC ∧
    (applyISupportTokens st (List.replicate (M + 1) tok)).modesD
        = (applyISupportToken st tok).modesD := by
  induction M with
  | zero => intro st; exact ⟨rfl, rfl, rfl, rfl⟩
  | succ M ih =>
    intro st
    have hstep : applyISupportTokens st (List.replicate (M + 2) tok)
        = applyISupportTokens (applyISupportToken st tok) (List.replicate (M + 1) tok) := by
      rw [List.replicate_succ]
      rfl
    rw [hstep]
    obtain ⟨hA, hB, hC, hD⟩ := ih (applyISupportToken st tok)
    obtain ⟨iA, iB, iC, iD⟩ := applyISupportToken_classes_idem st tok
    exact ⟨hA.trans iA, hB.trans iB, hC.trans iC, hD.trans iD⟩

theorem applyISupportToken_default_classes_nodup (tok : List Char)
    (hgood : goodChanmodesToken tok = true) :
    (applyISupportToken defaultIsuState tok).modesA.Nodup ∧
    (applyISupportToken defaultIsuState tok).modesB.Nodup ∧
    (applyISupportToken defaultIsuState tok).modesC.Nodup ∧
    (applyISupportToken defaultIsuState tok).modesD.Nodup := by
  unfold applyISupportToken
  unfold goodChanmodesToken at hgood
  cases hfm : findTokenMatch tok with
  | none => simp [hfm, defaultIsuState]
  | some pv =>
    obtain ⟨paramCs, valueCs⟩ := pv
    rw [hfm] at hgood
    simp only [hfm]
    by_cases h1 : String.mk paramCs = "CASEMAPPING"
    · simp [h1, defaultIsuState]
    · by_cases h2 : String.mk paramCs = "CHANLIMIT"
      · simp [h1, h2, defaultIsuState]
      · by_cases h3 : String.mk paramCs = "CHANMODES"
        · simp only [h3, if_pos] at hgood
          simp only [Bool.and_eq_true, List.all_eq_true, decide_eq_true_eq] at hgood
          have hseg : ∀ i ∈ List.range 4,
              ((splitOnChar ',' valueCs).getD i ("undefined".toList)).Nodup := hgood.2
          simp only [h1, h2, h3]
          simp
          refine ⟨?_, ?_, ?_, ?_⟩
          · exact chanmodesMerge_nil_nodup _
              (by simpa [List.getD] using hseg 0 (by simp))
          · exact chanmodesMerge_nil_nodup _
              (by simpa [List.getD] using hseg 1 (by simp))
          · exact chanmodesMerge_nil_nodup _
              (by simpa [List.getD] using hseg 2 (by simp))
          · exact chanmodesMerge_nil_nodup _
              (by simpa [List.getD] using hseg 3 (by simp))
        · by_cases h4 : String.mk paramCs = "CHANTYPES"
          · simp [h1, h2, h3, h4, defaultIsuState]
          · by_cases h5 : String.mk paramCs = "CHANNELLEN"
            · simp [h1, h2, h3, h4, h5, defaultIsuState]
            · by_cases h6 : String.mk paramCs = "IDCHAN"
              · simp [h1, h2, h3, h4, h5, h6, defaultIsuState]
              · by_cases h7 : String.mk paramCs = "KICKLEN"
                · simp [h1, h2, h3, h4, h5, h6, h7, defaultIsuState]
                · by_cases h8 : String.mk paramCs = "MAXLIST"
                  · simp [h1, h2, h3, h4, h5, h6, h7, h8, defaultIsuState]
                  · by_cases h9 : String.mk paramCs = "NICKLEN"
                    · simp [h1, h2, h3, h4, h5, h6, h7, h8, h9, defaultIsuState]
                    · by_cases h10 : String.mk paramCs = "PREFIX"
                      · cases hpv : parsePrefixValue valueCs with
                        | none =>
                          simp [h1, h2, h3, h4, h5, h6, h7, h8, h9, h10, hpv,
                            defaultIsuState]
                        | some mp =>
                          obtain ⟨ms, ps⟩ := mp
                          simp only [h1, h2, h3, h4, h5, h6, h7, h8, h9, h10, hpv]
                          simp
                          refine ⟨?_, ?_, ?_, ?_⟩
                          · rw [prefixLoop_modesA]
                            show List.Nodup defaultIsuState.modesA
                            decide
                          · apply prefixLoop_modesB_nodup
                            show List.Nodup defaultIsuState.modesB
                            decide
                          · rw [prefixLoop_modesC]
                            show List.Nodup defaultIsuState.modesC
                            decide
                          · rw [prefixLoop_modesD]
                            show List.Nodup defaultIsuState.modesD
                            decide
                      · by_cases h11 : String.mk paramCs = "STATUSMSG"
                        · simp [h1, h2, h3, h4, h5, h6, h7, h8, h9, h10, h11,
                            defaultIsuState]
                        · by_cases h12 : String.mk paramCs = "TARGMAX"
                          · simp [h1, h2, h3, h4, h5, h6, h7, h8, h9, h10, h11,
                              h12, defaultIsuState]
                          · by_cases h13 : String.mk paramCs = "TOPICLEN"
                            · simp [h1, h2, h3, h4, h5, h6, h7, h8, h9, h10, h11,
                                h12, h13, defaultIsuState]
                            · simp [h1, h2, h3, h4, h5, h6, h7, h8, h9, h10, h11,
                                h12, h13, defaultIsuState]

/-! ## Claim theorems -/

/-- C1: the claim says the tracked server capability set contains `sasl` if
and only if the advertised token list included a sasl token. The code pushes
`'sasl'` unconditionally (`if (saslTypes)` tests an array, which is always
truthy), so after a CAP LS whose token list contains no sasl token at all,
`sasl` is still recorded and `supportsSasl` returns true. This theorem
evaluates the embedded code at that failing input. -/
theorem c1_sasl_always_added :
    (Capabilities.extend emptyCapabilities ["away-notify multi-prefix"]).map
        (fun c => decide ("sasl" ∈ c.caps)) = some true ∧
    Capabilities.extend emptyCapabilities ["away-notify multi-prefix"]
      = some ⟨["away-notify", "multi-prefix", "sasl"], [], true⟩ ∧
    (((splitOnChar ' ' (jsTrim ("away-notify multi-prefix").toList)).map String.mk).all
        (fun t => !(t == "sasl" || ("sasl=".toList).isPrefixOf t.toList))) = true ∧
    ((onCapLs ⟨emptyCapabilities, emptyCapabilities⟩ ["away-notify multi-prefix"]).map
        (fun c => c.supportsSasl)) = some (some true) := by decide

/-- C2 counterexample: the claim includes starting prefix strings that
already contain the prefix char of the mode. For a user whose prefix string
is already `@`, processing `MODE +o user` removes the `@` (the `else if`
branch fires), and the following `MODE -o user` leaves it removed, so the
pair does not restore the original prefix string. -/
theorem c2_counterexample :
    alookup (applyModes ctxC2 ['-', 'o'] true ["alice"]
        (applyModes ctxC2 ['+', 'o'] true ["alice"] chanC2)).users "alice" = some [] ∧
    some ([] : List Char) ≠ some ['@'] ∧
    alookup chanC2.users "alice" = some ['@'] := by decide

/-- C2 (amended): for every user-prefix mode `m` with prefix char `p` and
every user present in the channel whose current prefix string does NOT
already contain `p`, processing `MODE +m user` and then `MODE -m user`
restores the user's prefix string. -/
theorem c2_prefix_roundtrip (ctx : ModeCtx) (ch : ChanData) (u : String)
    (m p : Char) (s : List Char)
    (hm : alookup ctx.prefixForMode m = some p)
    (hplus : m ≠ '+') (hminus : m ≠ '-')
    (hu : u ≠ "") (hcur : alookup ch.users u = some s) (hnp : p ∉ s) :
    alookup (applyModes ctx ['-', m] true [u]
        (applyModes ctx ['+', m] true [u] ch)).users u = some s := by
  simp [applyModes, hplus, hminus, hm, hu, hcur, hnp, alookup_aset_self,
    removeFirstChar_append_of_not_mem s p hnp]

/-- C2 witness: the round-trip theorem applied to a concrete channel where
`bob` holds only the `+` prefix. -/
theorem c2_witness :
    alookup ctxC2.prefixForMode 'o' = some '@' ∧ 'o' ≠ '+' ∧ 'o' ≠ '-' ∧
    ("bob" : String) ≠ "" ∧
    alookup [("bob", ['+'])] "bob" = some ['+'] ∧ '@' ∉ ['+'] ∧
    alookup (applyModes ctxC2 ['-', 'o'] true ["bob"]
        (applyModes ctxC2 ['+', 'o'] true ["bob"]
          { newChanData "#c" "#c" with users := [("bob", ['+'])] })).users "bob"
      = some ['+'] :=
  ⟨by decide, by decide, by decide, by decide, by decide, by decide,
    c2_prefix_roundtrip ctxC2 _ "bob" 'o' '@' ['+'] (by decide) (by decide)
      (by decide) (by decide) (by decide) (by decide)⟩

/-- C3 counterexample: the claim says processing `MODE -m param` removes the
consumed parameter from the stored list. With list mode `b` and stored
parameter list `["x"]`, processing `MODE -b x` leaves the list unchanged,
because the source filters by the mode character, not the parameter. -/
theorem c3_counterexample :
    alookup (applyModes ctxC3 ['-', 'b'] true ["x"] chanC3).modeParams 'b' = some ["x"] ∧
    some ["x"] ≠ some ([] : List String) ∧
    "x" ∈ (["x"] : List String) := by decide

/-- C3 (amended): for a class-a (list) mode `m` whose `modeParams` entry
holds `L`, processing `MODE -m param` sets the entry to `L` with every
element equal to the one-character string of `m` removed; the consumed
parameter itself plays no role in the removal. -/
theorem c3_list_mode_removal (ctx : ModeCtx) (ch : ChanData) (m : Char)
    (param : String) (L : List String)
    (hm : alookup ctx.prefixForMode m = none)
    (ha : m ∈ ctx.supported.a)
    (hplus : m ≠ '+') (hminus : m ≠ '-')
    (hL : alookup ch.modeParams m = some L) :
    alookup (applyModes ctx ['-', m] true [param] ch).modeParams m
      = some (L.filter (fun s => s ≠ String.singleton m)) := by
  simp [applyModes, hplus, hminus, hm, ha, handleChannelMode, hL, alookup_aset_self]

/-- C3 witness: the removal theorem applied to a concrete channel whose `b`
list holds `x` and `b`. -/
theorem c3_witness :
    alookup ctxC3.prefixForMode 'b' = none ∧ 'b' ∈ ctxC3.supported.a ∧
    'b' ≠ '+' ∧ 'b' ≠ '-' ∧
    alookup [('b', ["x", "b"])] 'b' = some ["x", "b"] ∧
    alookup (applyModes ctxC3 ['-', 'b'] true ["x"]
        { newChanData "#c" "#c" with modeParams := [('b', ["x", "b"])] }).modeParams 'b'
      = some (["x", "b"].filter (fun s => s ≠ String.singleton 'b')) :=
  ⟨by decide, by decide, by decide, by decide, by decide,
    c3_list_mode_removal ctxC3 _ 'b' "x" ["x", "b"] (by decide) (by decide)
      (by decide) (by decide) (by decide)⟩

/-- C6: the claim says rebuilding an `IrcCapabilities` from `serialise()`
output and serialising again yields the same four lists. The constructor
adds the serialised user capabilities into the SERVER capability set (a
copy-paste slip), so for an instance whose only content is the user
capability `account-tag`, the round trip moves it to the server list and
empties the user list. This theorem evaluates the embedded code at that
failing input. -/
theorem c6_roundtrip_broken :
    (ircCapabilitiesOfData (some c6OrigCaps.serialise)).serialise
        = ⟨["account-tag"], [], [], []⟩ ∧
    (ircCapabilitiesOfData (some c6OrigCaps.serialise)).serialise
        ≠ c6OrigCaps.serialise := by decide

/-- C7: with a connection present and no requested disconnect, the line
written by `_send` is the arguments joined by single spaces and terminated
by CRLF, with the final argument prefixed by `:` exactly when it contains
whitespace, begins with `:`, or is empty; all other arguments are written
unchanged. -/
theorem c7_send_serialization (init : List String) (last : String) :
    sendLine true false (init ++ [last]) =
      some (joinWithSpace
        (init ++ [(if needsTrailingColon last then ":" ++ last else last)]) ++ "\r\n") := by
  unfold sendLine
  simp only [Bool.not_true, List.getLast?_concat, List.dropLast_concat]
  by_cases h : needsTrailingColon last <;> simp [h]

/-- C8 counterexample: the claim says the created record keeps the server's
original case in `serverName`. Under the default `ascii` casemapping a
self-JOIN of `#Foo` first casemaps the argument, so the created record has
`serverName = "#foo"`, not `"#Foo"`. -/
theorem c8_join_counterexample :
    onJoinSelf "ascii" [] "#Foo" = [("#foo", newChanData "#foo" "#foo")] ∧
    (newChanData "#foo" "#foo").serverName ≠ "#Foo" := by decide

/-- C8 (amended): a self-JOIN of a `#`-channel under a known casemapping
creates the ChanData record under the JS-lowercased key with `serverName`
equal to the case-mapped (already lowercased) channel argument — which
coincides with the key — rather than the server's original case. -/
theorem c8_join_casemapped (cm : String) (chans : Chans) (chanArg : String)
    (t : List Char)
    (h : alookup chans (jsToLower (casemapArg cm chanArg)) = none)
    (hcm : cm ∈ knownCaseMappings) (ht : chanArg.toList = '#' :: t) :
    alookup (onJoinSelf cm chans chanArg) (jsToLower (casemapArg cm chanArg))
      = some (newChanData (jsToLower (casemapArg cm chanArg)) (casemapArg cm chanArg)) ∧
    casemapArg cm chanArg = ircToLowerCase cm chanArg ∧
    jsToLower (casemapArg cm chanArg) = casemapArg cm chanArg := by
  have harg : casemapArg cm chanArg = ircToLowerCase cm chanArg := by
    unfold casemapArg
    rw [ht]
    rfl
  refine ⟨?_, harg, harg ▸ ircToLowerCase_lower_fixed cm chanArg hcm⟩
  unfold onJoinSelf chanData
  simp [h, alookup_aset_self]

/-- C8 witness: the theorem applied to the self-JOIN of `#Foo` on an empty
channel map under the default `ascii` casemapping. -/
theorem c8_join_witness :
    alookup ([] : Chans) (jsToLower (casemapArg "ascii" "#Foo")) = none ∧
    "ascii" ∈ knownCaseMappings ∧ ("#Foo" : String).toList = '#' :: "Foo".toList ∧
    (alookup (onJoinSelf "ascii" [] "#Foo") (jsToLower (casemapArg "ascii" "#Foo"))
        = some (newChanData (jsToLower (casemapArg "ascii" "#Foo"))
            (casemapArg "ascii" "#Foo")) ∧
      casemapArg "ascii" "#Foo" = ircToLowerCase "ascii" "#Foo" ∧
      jsToLower (casemapArg "ascii" "#Foo") = casemapArg "ascii" "#Foo") :=
  ⟨by decide, by decide, by decide,
    c8_join_casemapped "ascii" [] "#Foo" "Foo".toList (by decide) (by decide)
      (by decide)⟩

/-- C9 counterexample: the claim says the fallback nick is `enick_` followed
by three decimal digits. With random draw 5 the code produces `enick_5`,
whose suffix has a single digit. -/
theorem c9_counterexample :
    onBadNickname "" 5 = ⟨[["NICK", "enick_5"]], some "enick_5", false⟩ ∧
    ¬ ("enick_5".length = "enick_".length + 3) := by decide

/-- C9 (amended): on `err_erroneusnickname`/`err_unavailresource` with an
empty hostMask, the client sends exactly one `NICK` with the fallback nick
`enick_` followed by the decimal representation (one to three digits) of a
random integer below 1000, updates `currentNick`, and emits no error; with a
non-empty hostMask it emits the error event and sends nothing. -/
theorem c9_fallback_nick (hostMask : String) (rnd : Nat) (hr : rnd < 1000) :
    (hostMask = "" →
      onBadNickname hostMask rnd =
        ⟨[["NICK", "enick_" ++ toString rnd]], some ("enick_" ++ toString rnd), false⟩ ∧
      1 ≤ (Nat.repr rnd).length ∧ (Nat.repr rnd).length ≤ 3) ∧
    (hostMask ≠ "" → onBadNickname hostMask rnd = ⟨[], none, true⟩) := by
  constructor
  · intro hh
    refine ⟨by simp [onBadNickname, hh], repr_len_pos rnd,
      Nat.repr_length rnd 3 (by norm_num) (by norm_num [hr])⟩
  · intro hh
    simp [onBadNickname, hh]

/-- C9 witness: the theorem applied at hostMask `""` and random draw 42. -/
theorem c9_fallback_witness :
    (42 < 1000) ∧
    (onBadNickname "" 42 =
        ⟨[["NICK", "enick_" ++ toString 42]], some ("enick_" ++ toString 42), false⟩ ∧
      1 ≤ (Nat.repr 42).length ∧ (Nat.repr 42).length ≤ 3) :=
  ⟨by decide, (c9_fallback_nick "" 42 (by decide)).1 rfl⟩

/-- C10: for a channel name whose lowercased key is absent, `chanData(name,
true)` inserts a fresh record (empty users, mode and modeParams) under that
key but returns `undefined`; a subsequent `chanData(name)` returns the
stored record, and `chanData(name, false)` never creates an entry. -/
theorem c10_chandata_create (chans : Chans) (name : String)
    (h : alookup chans (jsToLower name) = none) :
    (chanData chans name true).1 = none ∧
    alookup (chanData chans name true).2 (jsToLower name)
      = some (newChanData (jsToLower name) name) ∧
    (newChanData (jsToLower name) name).users = [] ∧
    (newChanData (jsToLower name) name).mode = [] ∧
    (newChanData (jsToLower name) name).modeParams = [] ∧
    (chanData (chanData chans name true).2 name false).1
      = some (newChanData (jsToLower name) name) ∧
    (chanData chans name false).2 = chans := by
  refine ⟨?_, ?_, rfl, rfl, rfl, ?_, ?_⟩ <;>
    simp [chanData, h, alookup_aset_self, newChanData]

/-- C10 witness: the theorem applied to an empty channel map and `#Chan`. -/
theorem c10_chandata_witness :
    alookup ([] : Chans) (jsToLower "#Chan") = none ∧
    ((chanData ([] : Chans) "#Chan" true).1 = none ∧
      alookup (chanData ([] : Chans) "#Chan" true).2 (jsToLower "#Chan")
        = some (newChanData (jsToLower "#Chan") "#Chan") ∧
      (newChanData (jsToLower "#Chan") "#Chan").users = [] ∧
      (newChanData (jsToLower "#Chan") "#Chan").mode = [] ∧
      (newChanData (jsToLower "#Chan") "#Chan").modeParams = [] ∧
      (chanData (chanData ([] : Chans) "#Chan" true).2 "#Chan" false).1
        = some (newChanData (jsToLower "#Chan") "#Chan") ∧
      (chanData ([] : Chans) "#Chan" false).2 = []) :=
  ⟨by decide, c10_chandata_create [] "#Chan" (by decide)⟩

/-- C4 (amended): after processing a SINGLE well-formed PREFIX token (mode
string and prefix string of equal length, each without duplicates) into empty
`modeForPrefix`/`prefixForMode` maps, the two maps are mutual inverses:
`modeForPrefix[p] = m` holds iff `prefixForMode[m] = p`. -/
theorem c4_single_prefix_inverse (ms ps : List Char) (st : IsuState)
    (hlen : ms.length = ps.length) (hms : ms.Nodup) (hps : ps.Nodup)
    (hmfp : st.modeForPrefix = []) (hpfm : st.prefixForMode = [])
    (q r : Char) :
    (alookup (prefixLoop ms ps st).modeForPrefix q = some r ↔
      alookup (prefixLoop ms ps st).prefixForMode r = some q) := by
  rw [prefixLoop_modeForPrefix ms ps st hlen hps q,
      prefixLoop_prefixForMode ms ps st hlen hms r]
  have hcollapse : ∀ (x : Option Char),
      (match x with | some y => some y | none => (none : Option Char)) = x := by
    intro x; cases x <;> rfl
  simp only [hmfp, hpfm]
  have hnil : ∀ c : Char, alookup ([] : List (Char × Char)) c = none := fun _ => rfl
  rw [hnil q, hnil r, hcollapse, hcollapse]
  have hk1 : ((ps.zip ms).map Prod.fst).Nodup := by
    rw [List.map_fst_zip ps ms (by omega)]
    exact hps
  have hk2 : ((ms.zip ps).map Prod.fst).Nodup := by
    rw [List.map_fst_zip ms ps (by omega)]
    exact hms
  rw [alookup_eq_some_iff_mem hk1, alookup_eq_some_iff_mem hk2]
  constructor
  · intro hmem
    have := (List.mem_map_of_injective Prod.swap_injective).mpr hmem
    rwa [List.zip_swap] at this
  · intro hmem
    have := (List.mem_map_of_injective Prod.swap_injective).mpr hmem
    rwa [List.zip_swap] at this

/-- C4 counterexample: the claim quantifies over every sequence of
well-formed PREFIX tokens. Processing `PREFIX=(o)@` and then `PREFIX=(v)@`
(each well-formed) leaves `prefixForMode['o'] = '@'` while
`modeForPrefix['@'] = 'v'`, so the two maps are not mutual inverses. -/
theorem c4_remap_counterexample :
    alookup (applyISupportTokens defaultIsuState prefixToksC4).prefixForMode 'o'
        = some '@' ∧
    alookup (applyISupportTokens defaultIsuState prefixToksC4).modeForPrefix '@'
        = some 'v' ∧
    ¬ (∀ q r : Char,
        alookup (applyISupportTokens defaultIsuState prefixToksC4).modeForPrefix q
            = some r ↔
          alookup (applyISupportTokens defaultIsuState prefixToksC4).prefixForMode r
            = some q) := by
  refine ⟨by decide, by decide, fun h => ?_⟩
  have h1 := (h '@' 'o').mpr (by decide)
  exact absurd h1 (by decide)

/-- C4 witness: the inverse theorem applied to the token body `(ov)@+` on
the default (empty-map) state, evaluated at the pair `('@', 'o')`. -/
theorem c4_witness :
    (['o', 'v'] : List Char).length = (['@', '+'] : List Char).length ∧
    (['o', 'v'] : List Char).Nodup ∧ (['@', '+'] : List Char).Nodup ∧
    defaultIsuState.modeForPrefix = [] ∧ defaultIsuState.prefixForMode = [] ∧
    (alookup (prefixLoop ['o', 'v'] ['@', '+'] defaultIsuState).modeForPrefix '@'
        = some 'o' ↔
      alookup (prefixLoop ['o', 'v'] ['@', '+'] defaultIsuState).prefixForMode 'o'
        = some '@') :=
  ⟨rfl, by decide, by decide, rfl, rfl,
    c4_single_prefix_inverse ['o', 'v'] ['@', '+'] defaultIsuState rfl (by decide)
      (by decide) rfl rfl '@' 'o'⟩

/-- C5 (amended): (i) for any sequence of ISUPPORT tokens, `supportedState.
extra` never acquires a duplicate entry (the guarded push deduplicates);
(ii) starting from the default state, processing the SAME single token M ≥ 1
times — with a CHANMODES payload of at least four duplicate-free class
segments when the token is a CHANMODES token — leaves each of the four
channel-mode class strings without duplicate characters. (Sequences mixing
DIFFERENT tokens can duplicate class characters, because the CHANMODES merge
tests substring inclusion of whole segments; see the counterexample.) -/
theorem c5_isupport_dedup :
    (∀ (args : List (List Char)) (st : IsuState), st.extra.Nodup →
      (applyISupportTokens st args).extra.Nodup) ∧
    (∀ (tok : List Char) (M : Nat), 1 ≤ M → goodChanmodesToken tok = true →
      ((applyISupportTokens defaultIsuState (List.replicate M tok)).modesA.Nodup ∧
       (applyISupportTokens defaultIsuState (List.replicate M tok)).modesB.Nodup ∧
       (applyISupportTokens defaultIsuState (List.replicate M tok)).modesC.Nodup ∧
       (applyISupportTokens defaultIsuState (List.replicate M tok)).modesD.Nodup)) := by
  constructor
  · exact fun args st h => applyISupportTokens_extra_nodup args st h
  · intro tok M hM hgood
    obtain ⟨M', rfl⟩ : ∃ M', M = M' + 1 := ⟨M - 1, by omega⟩
    obtain ⟨hA, hB, hC, hD⟩ := applyISupportTokens_replicate_classes tok M' defaultIsuState
    obtain ⟨nA, nB, nC, nD⟩ := applyISupportToken_default_classes_nodup tok hgood
    exact ⟨hA ▸ nA, hB ▸ nB, hC ▸ nC, hD ▸ nD⟩

/-- C5 counterexample: the claim quantifies over every token sequence in
which some token K repeats. In the four-token sequence with `FOO=BAR` twice
(M = 2 > 1) and `CHANMODES=b,k,l,m` followed by `CHANMODES=ab,k,l,m`, the
class-a string becomes `bab`, containing `b` twice, because `"b"` is not a
substring of `"ab"` when merged. `extra` stays duplicate-free. -/
theorem c5_counterexample :
    toksC5.count ("FOO=BAR".toList) = 2 ∧
    (applyISupportTokens defaultIsuState toksC5).modesA = ['b', 'a', 'b'] ∧
    ¬ (applyISupportTokens defaultIsuState toksC5).modesA.Nodup ∧
    (applyISupportTokens defaultIsuState toksC5).extra = ["BAR"] := by decide

/-- C5 witness: part (i) applied to the concrete four-token sequence, and
part (ii) applied to two repetitions of `CHANMODES=beI,k,l,imnt`. -/
theorem c5_witness :
    (defaultIsuState.extra.Nodup ∧
      (applyISupportTokens defaultIsuState toksC5).extra.Nodup) ∧
    ((1 ≤ 2) ∧ goodChanmodesToken ("CHANMODES=beI,k,l,imnt".toList) = true ∧
      ((applyISupportTokens defaultIsuState
          (List.replicate 2 ("CHANMODES=beI,k,l,imnt".toList))).modesA.Nodup ∧
       (applyISupportTokens defaultIsuState
          (List.replicate 2 ("CHANMODES=beI,k,l,imnt".toList))).modesB.Nodup ∧
       (applyISupportTokens defaultIsuState
          (List.replicate 2 ("CHANMODES=beI,k,l,imnt".toList))).modesC.Nodup ∧
       (applyISupportTokens defaultIsuState
          (List.replicate 2 ("CHANMODES=beI,k,l,imnt".toList))).modesD.Nodup)) :=
  ⟨⟨by decide, c5_isupport_dedup.1 toksC5 defaultIsuState (by decide)⟩,
   ⟨by decide, by decide,
     c5_isupport_dedup.2 ("CHANMODES=beI,k,l,imnt".toList) 2 (by decide) (by decide)⟩⟩

end NodeIrc
